import Mathlib

/-!
# Verification of `acustica_de_salas` macroscopic acoustic models

Shallow embedding of the two source files:

* `src/utils.py` — `delany_bazley` (no default arguments, `kc` bracket has the
  two terms in swapped real/imaginary roles);
* `src/.ipynb_checkpoints/macroscopic_models-checkpoint.py` — `delany_bazley`
  (defaults `c0 = 343`, `rho0 = 1.21`) and `jca` (Johnson-Champoux-Allard).

Python floats are modelled by `ℝ`, complex results by `ℂ`, frequency vectors
by `List ℝ`, and numpy's vectorized arithmetic by `List.map` of the scalar
formula.  `np.sqrt` on complex input is the principal complex square root,
modelled by `csqrt` below.
-/

open Complex

noncomputable section

/-- Principal complex square root, modelling `np.sqrt` on complex arguments:
the root with non-negative real part, with the sign of the imaginary part
matching the argument (the `z.im = 0, z.re < 0` boundary yields `+I·√|z|`). -/
def csqrt (z : ℂ) : ℂ :=
  ⟨Real.sqrt ((Complex.abs z + z.re) / 2),
   (if z.im < 0 then -1 else 1) * Real.sqrt ((Complex.abs z - z.re) / 2)⟩

namespace utils

/-- Elementwise characteristic impedance of `delany_bazley` in `src/utils.py`:
`Zc = (rho0 * c0) * ((1 + 9.08*((1e3*(f/sigma))**(-0.75))) - 1j*11.9*((1e3*(f/sigma))**(-0.73)))`. -/
def Zc_elem (sigma c0 rho0 fi : ℝ) : ℂ :=
  ((rho0 * c0 : ℝ) : ℂ) *
    (((1 + 9.08 * ((1e3 * (fi / sigma)) ^ (-0.75 : ℝ)) : ℝ) : ℂ)
      - Complex.I * 11.9 * (((1e3 * (fi / sigma)) ^ (-0.73 : ℝ) : ℝ) : ℂ))

/-- Elementwise characteristic wave number of `delany_bazley` in `src/utils.py`:
`kc = ((2*pi*f)/c0) * ((10.3*((1e3*(f/sigma))**(-0.59))) + 1j*(1 + (10.8*((1e3*(f/sigma))**(-0.7)))))`. -/
def kc_elem (sigma c0 rho0 fi : ℝ) : ℂ :=
  ((2 * Real.pi * fi / c0 : ℝ) : ℂ) *
    ((((10.3 * ((1e3 * (fi / sigma)) ^ (-0.59 : ℝ)) : ℝ)) : ℂ)
      + Complex.I * (((1 + 10.8 * ((1e3 * (fi / sigma)) ^ (-0.7 : ℝ)) : ℝ) : ℂ)))

/-- `delany_bazley(f, sigma, c0, rho0)` from `src/utils.py`: returns the pair
of vectors `(Zc, kc)` computed elementwise over `f`. -/
def delany_bazley (f : List ℝ) (sigma c0 rho0 : ℝ) : List ℂ × List ℂ :=
  (f.map (Zc_elem sigma c0 rho0), f.map (kc_elem sigma c0 rho0))

end utils

namespace macroscopic

/-- Elementwise characteristic impedance of `delany_bazley` in
`src/.ipynb_checkpoints/macroscopic_models-checkpoint.py`:
`Zc = (rho0*c0)*(1 + 9.08*(((1e3*f)/sigma)**(-0.75)) - 1j*11.9*(((1e3*f)/sigma)**(-0.73)))`. -/
def Zc_elem (sigma c0 rho0 fi : ℝ) : ℂ :=
  ((rho0 * c0 : ℝ) : ℂ) *
    (((1 + 9.08 * (((1e3 * fi) / sigma) ^ (-0.75 : ℝ)) : ℝ) : ℂ)
      - Complex.I * 11.9 * ((((1e3 * fi) / sigma) ^ (-0.73 : ℝ) : ℝ) : ℂ))

/-- Elementwise characteristic wave number of `delany_bazley` in
`src/.ipynb_checkpoints/macroscopic_models-checkpoint.py`:
`kc = ((2*np.pi*f)/c0) * (1 + 10.8*(((1e3*f)/sigma)**(-0.70)) - 1j*10.3*(((1e3*f)/sigma)**(-0.59)))`. -/
def kc_elem (sigma c0 rho0 fi : ℝ) : ℂ :=
  ((2 * Real.pi * fi / c0 : ℝ) : ℂ) *
    (((1 + 10.8 * (((1e3 * fi) / sigma) ^ (-0.70 : ℝ)) : ℝ) : ℂ)
      - Complex.I * 10.3 * ((((1e3 * fi) / sigma) ^ (-0.59 : ℝ) : ℝ) : ℂ))

/-- `delany_bazley(f, sigma, c0=343, rho0=1.21)` from
`src/.ipynb_checkpoints/macroscopic_models-checkpoint.py`. -/
def delany_bazley (f : List ℝ) (sigma : ℝ) (c0 : ℝ := 343) (rho0 : ℝ := 1.21) :
    List ℂ × List ℂ :=
  (f.map (Zc_elem sigma c0 rho0), f.map (kc_elem sigma c0 rho0))

/-- `brackets_sqrt` of `jca` (line 95 of the checkpoint file):
`np.sqrt(1 + ((4j*(tortuosity**2)*air_viscosity*rho0*omega) / ((sigma**2)*(viscous_characteristic_length**2)*(porosity**2))))`. -/
def brackets_sqrt (sigma tortuosity viscous_characteristic_length porosity
    rho0 air_viscosity omega : ℝ) : ℂ :=
  csqrt (1 + (4 * Complex.I * ((tortuosity ^ 2 * air_viscosity * rho0 * omega : ℝ) : ℂ)) /
    (((sigma ^ 2 * viscous_characteristic_length ^ 2 * porosity ^ 2 : ℝ) : ℂ)))

/-- `rho_c` of `jca` (line 96 of the checkpoint file):
`(rho0*tortuosity) * (1 + (((sigma*porosity) / (1j*tortuosity*rho0*omega)) * brackets_sqrt))`. -/
def rho_c (sigma tortuosity viscous_characteristic_length porosity
    rho0 air_viscosity omega : ℝ) : ℂ :=
  ((rho0 * tortuosity : ℝ) : ℂ) *
    (1 + (((sigma * porosity : ℝ) : ℂ) /
            (Complex.I * ((tortuosity * rho0 * omega : ℝ) : ℂ))) *
      brackets_sqrt sigma tortuosity viscous_characteristic_length porosity
        rho0 air_viscosity omega)

/-- `denominator_sqrt` of `jca` (line 98): like `brackets_sqrt` but with an
extra `prandtl` factor on the viscosity term inside the square root. -/
def denominator_sqrt (sigma tortuosity viscous_characteristic_length porosity
    rho0 air_viscosity prandtl omega : ℝ) : ℂ :=
  csqrt (1 + (4 * Complex.I * ((tortuosity ^ 2 * air_viscosity * rho0 * prandtl * omega : ℝ) : ℂ)) /
    (((sigma ^ 2 * viscous_characteristic_length ^ 2 * porosity ^ 2 : ℝ) : ℂ)))

/-- `K` of `jca` (line 99):
`gamma*P0 / (gamma - ((gamma - 1) / (1 + (((sigma*porosity) / (1j*tortuosity*rho0*prandtl*omega)) * denominator_sqrt))))`. -/
def K (sigma tortuosity viscous_characteristic_length porosity
    rho0 gamma air_viscosity prandtl P0 omega : ℝ) : ℂ :=
  ((gamma * P0 : ℝ) : ℂ) /
    (((gamma : ℝ) : ℂ) - (((gamma - 1 : ℝ) : ℂ) /
      (1 + (((sigma * porosity : ℝ) : ℂ) /
              (Complex.I * ((tortuosity * rho0 * prandtl * omega : ℝ) : ℂ))) *
        denominator_sqrt sigma tortuosity viscous_characteristic_length porosity
          rho0 air_viscosity prandtl omega)))

/-- Elementwise impedance of `jca`: `Zc = np.sqrt(K * rho_c)` at `omega = 2*np.pi*f`. -/
def jca_Zc_elem (sigma tortuosity viscous_characteristic_length porosity
    rho0 gamma air_viscosity prandtl P0 fi : ℝ) : ℂ :=
  csqrt
    (K sigma tortuosity viscous_characteristic_length porosity
        rho0 gamma air_viscosity prandtl P0 (2 * Real.pi * fi) *
     rho_c sigma tortuosity viscous_characteristic_length porosity
        rho0 air_viscosity (2 * Real.pi * fi))

/-- Elementwise wave number of `jca`: `kc = omega * np.sqrt(rho_c / K)` at `omega = 2*np.pi*f`. -/
def jca_kc_elem (sigma tortuosity viscous_characteristic_length porosity
    rho0 gamma air_viscosity prandtl P0 fi : ℝ) : ℂ :=
  ((2 * Real.pi * fi : ℝ) : ℂ) *
    csqrt
      (rho_c sigma tortuosity viscous_characteristic_length porosity
          rho0 air_viscosity (2 * Real.pi * fi) /
       K sigma tortuosity viscous_characteristic_length porosity
          rho0 gamma air_viscosity prandtl P0 (2 * Real.pi * fi))

/-- `jca(f, sigma, tortuosity, porosity, viscous_characteristic_length, rho0=1.21,
gamma=1.4, air_viscosity=1.84e-5, prandtl=0.77, P0=101325)` from
`src/.ipynb_checkpoints/macroscopic_models-checkpoint.py`. -/
def jca (f : List ℝ) (sigma tortuosity porosity viscous_characteristic_length : ℝ)
    (rho0 : ℝ := 1.21) (gamma : ℝ := 1.4) (air_viscosity : ℝ := 1.84e-5)
    (prandtl : ℝ := 0.77) (P0 : ℝ := 101325) : List ℂ × List ℂ :=
  (f.map (jca_Zc_elem sigma tortuosity viscous_characteristic_length porosity
      rho0 gamma air_viscosity prandtl P0),
   f.map (jca_kc_elem sigma tortuosity viscous_characteristic_length porosity
      rho0 gamma air_viscosity prandtl P0))

end macroscopic

/-- Claim C1: the empirical power-law model v1 (`delany_bazley` in
`macroscopic_models-checkpoint.py`) returns, for each index `i`,
`Zc[i] = rho0*c0*((1 + 9.08*(1000*f[i]/sigma)^(-0.75)) - j*11.9*(1000*f[i]/sigma)^(-0.73))`
and
`kc[i] = (2*pi*f[i]/c0)*((1 + 10.8*(1000*f[i]/sigma)^(-0.70)) - j*10.3*(1000*f[i]/sigma)^(-0.59))`.
Stated for all `sigma` (in particular all `sigma > 0` as in the claim). -/
theorem delany_bazley_v1_formula (f : List ℝ) (sigma c0 rho0 : ℝ) :
    (macroscopic.delany_bazley f sigma c0 rho0).1 =
      f.map (fun fi =>
        (rho0 : ℂ) * (c0 : ℂ) *
          ((1 + 9.08 * (((1000 * fi / sigma : ℝ) ^ (-0.75 : ℝ) : ℝ) : ℂ))
            - Complex.I * 11.9 * (((1000 * fi / sigma : ℝ) ^ (-0.73 : ℝ) : ℝ) : ℂ))) ∧
    (macroscopic.delany_bazley f sigma c0 rho0).2 =
      f.map (fun fi =>
        ((2 * Real.pi * fi / c0 : ℝ) : ℂ) *
          ((1 + 10.8 * (((1000 * fi / sigma : ℝ) ^ (-0.70 : ℝ) : ℝ) : ℂ))
            - Complex.I * 10.3 * (((1000 * fi / sigma : ℝ) ^ (-0.59 : ℝ) : ℝ) : ℂ))) := by
  have h1000 : (1e3 : ℝ) = (1000 : ℝ) := by norm_num
  constructor
  · simp only [macroscopic.delany_bazley]
    refine List.map_congr_left fun fi _ => ?_
    unfold macroscopic.Zc_elem
    rw [h1000]
    push_cast
    ring_nf
    push_cast
    ring_nf
  · simp only [macroscopic.delany_bazley]
    refine List.map_congr_left fun fi _ => ?_
    unfold macroscopic.kc_elem
    rw [h1000]
    push_cast
    ring_nf
    push_cast
    ring_nf

lemma brackets_sqrt_eq_spec (sigma tortuosity vcl porosity rho0 eta omega : ℝ) :
    macroscopic.brackets_sqrt sigma tortuosity vcl porosity rho0 eta omega =
      csqrt (1 + (4 * Complex.I * (tortuosity : ℂ) ^ 2 * (eta : ℂ) * (rho0 : ℂ) * (omega : ℂ)) /
        ((sigma : ℂ) ^ 2 * (vcl : ℂ) ^ 2 * (porosity : ℂ) ^ 2)) := by
  unfold macroscopic.brackets_sqrt
  congr 1
  push_cast
  ring

lemma denominator_sqrt_eq_spec (sigma tortuosity vcl porosity rho0 eta prandtl omega : ℝ) :
    macroscopic.denominator_sqrt sigma tortuosity vcl porosity rho0 eta prandtl omega =
      csqrt (1 + (4 * Complex.I * (tortuosity : ℂ) ^ 2 * (eta : ℂ) * (rho0 : ℂ) *
          (prandtl : ℂ) * (omega : ℂ)) /
        ((sigma : ℂ) ^ 2 * (vcl : ℂ) ^ 2 * (porosity : ℂ) ^ 2)) := by
  unfold macroscopic.denominator_sqrt
  congr 1
  push_cast
  ring

lemma rho_c_eq_spec (sigma tortuosity vcl porosity rho0 eta omega : ℝ) :
    macroscopic.rho_c sigma tortuosity vcl porosity rho0 eta omega =
      (rho0 : ℂ) * (tortuosity : ℂ) *
        (1 + ((sigma : ℂ) * (porosity : ℂ)) /
            (Complex.I * (tortuosity : ℂ) * (rho0 : ℂ) * (omega : ℂ)) *
          csqrt (1 + (4 * Complex.I * (tortuosity : ℂ) ^ 2 * (eta : ℂ) * (rho0 : ℂ) *
              (omega : ℂ)) /
            ((sigma : ℂ) ^ 2 * (vcl : ℂ) ^ 2 * (porosity : ℂ) ^ 2))) := by
  unfold macroscopic.rho_c
  rw [brackets_sqrt_eq_spec]
  push_cast
  ring

lemma K_eq_spec (sigma tortuosity vcl porosity rho0 gamma eta prandtl P0 omega : ℝ) :
    macroscopic.K sigma tortuosity vcl porosity rho0 gamma eta prandtl P0 omega =
      (gamma : ℂ) * (P0 : ℂ) /
        ((gamma : ℂ) - ((gamma : ℂ) - 1) /
          (1 + ((sigma : ℂ) * (porosity : ℂ)) /
              (Complex.I * (tortuosity : ℂ) * (rho0 : ℂ) * (prandtl : ℂ) * (omega : ℂ)) *
            csqrt (1 + (4 * Complex.I * (tortuosity : ℂ) ^ 2 * (eta : ℂ) * (rho0 : ℂ) *
                (prandtl : ℂ) * (omega : ℂ)) /
              ((sigma : ℂ) ^ 2 * (vcl : ℂ) ^ 2 * (porosity : ℂ) ^ 2)))) := by
  unfold macroscopic.K
  rw [denominator_sqrt_eq_spec]
  push_cast
  ring

/-- Claim C2: for every frequency sequence the phenomenological model (`jca`)
returns, for each index `i`, `Zc[i] = sqrt(K[i]*rho_c[i])` and
`kc[i] = omega[i]*sqrt(rho_c[i]/K[i])` with `omega[i] = 2*pi*f[i]`,
`rho_c[i] = rho0*tortuosity*(1 + (sigma*porosity)/(j*tortuosity*rho0*omega[i]) *
sqrt(1 + (4j*tortuosity^2*air_viscosity*rho0*omega[i])/(sigma^2*Lambda^2*porosity^2)))`
and `K[i] = gamma*P0/(gamma - (gamma-1)/(1 +
(sigma*porosity)/(j*tortuosity*rho0*prandtl*omega[i]) *
sqrt(1 + (4j*tortuosity^2*air_viscosity*rho0*prandtl*omega[i])/(sigma^2*Lambda^2*porosity^2))))`,
with principal complex square roots (`csqrt`).  Stated for all parameter values,
in particular the strictly positive ones of the claim. -/
theorem jca_formula (f : List ℝ) (sigma tortuosity porosity vcl rho0 gamma eta prandtl P0 : ℝ) :
    (macroscopic.jca f sigma tortuosity porosity vcl rho0 gamma eta prandtl P0).1 =
      f.map (fun fi =>
        csqrt
          ((gamma : ℂ) * (P0 : ℂ) /
              ((gamma : ℂ) - ((gamma : ℂ) - 1) /
                (1 + ((sigma : ℂ) * (porosity : ℂ)) /
                    (Complex.I * (tortuosity : ℂ) * (rho0 : ℂ) * (prandtl : ℂ) *
                      ((2 * Real.pi * fi : ℝ) : ℂ)) *
                  csqrt (1 + (4 * Complex.I * (tortuosity : ℂ) ^ 2 * (eta : ℂ) * (rho0 : ℂ) *
                      (prandtl : ℂ) * ((2 * Real.pi * fi : ℝ) : ℂ)) /
                    ((sigma : ℂ) ^ 2 * (vcl : ℂ) ^ 2 * (porosity : ℂ) ^ 2)))) *
            ((rho0 : ℂ) * (tortuosity : ℂ) *
              (1 + ((sigma : ℂ) * (porosity : ℂ)) /
                  (Complex.I * (tortuosity : ℂ) * (rho0 : ℂ) * ((2 * Real.pi * fi : ℝ) : ℂ)) *
                csqrt (1 + (4 * Complex.I * (tortuosity : ℂ) ^ 2 * (eta : ℂ) * (rho0 : ℂ) *
                    ((2 * Real.pi * fi : ℝ) : ℂ)) /
                  ((sigma : ℂ) ^ 2 * (vcl : ℂ) ^ 2 * (porosity : ℂ) ^ 2)))))) ∧
    (macroscopic.jca f sigma tortuosity porosity vcl rho0 gamma eta prandtl P0).2 =
      f.map (fun fi =>
        ((2 * Real.pi * fi : ℝ) : ℂ) *
          csqrt
            (((rho0 : ℂ) * (tortuosity : ℂ) *
                (1 + ((sigma : ℂ) * (porosity : ℂ)) /
                    (Complex.I * (tortuosity : ℂ) * (rho0 : ℂ) * ((2 * Real.pi * fi : ℝ) : ℂ)) *
                  csqrt (1 + (4 * Complex.I * (tortuosity : ℂ) ^ 2 * (eta : ℂ) * (rho0 : ℂ) *
                      ((2 * Real.pi * fi : ℝ) : ℂ)) /
                    ((sigma : ℂ) ^ 2 * (vcl : ℂ) ^ 2 * (porosity : ℂ) ^ 2)))) /
              ((gamma : ℂ) * (P0 : ℂ) /
                ((gamma : ℂ) - ((gamma : ℂ) - 1) /
                  (1 + ((sigma : ℂ) * (porosity : ℂ)) /
                      (Complex.I * (tortuosity : ℂ) * (rho0 : ℂ) * (prandtl : ℂ) *
                        ((2 * Real.pi * fi : ℝ) : ℂ)) *
                    csqrt (1 + (4 * Complex.I * (tortuosity : ℂ) ^ 2 * (eta : ℂ) * (rho0 : ℂ) *
                        (prandtl : ℂ) * ((2 * Real.pi * fi : ℝ) : ℂ)) /
                      ((sigma : ℂ) ^ 2 * (vcl : ℂ) ^ 2 * (porosity : ℂ) ^ 2))))))) := by
  constructor
  · simp only [macroscopic.jca]
    refine List.map_congr_left fun fi _ => ?_
    unfold macroscopic.jca_Zc_elem
    rw [rho_c_eq_spec, K_eq_spec]
  · simp only [macroscopic.jca]
    refine List.map_congr_left fun fi _ => ?_
    unfold macroscopic.jca_kc_elem
    rw [rho_c_eq_spec, K_eq_spec]

lemma utils_Zc_elem_eq (sigma c0 rho0 fi : ℝ) :
    utils.Zc_elem sigma c0 rho0 fi = macroscopic.Zc_elem sigma c0 rho0 fi := by
  unfold utils.Zc_elem macroscopic.Zc_elem
  simp only [mul_div_assoc]

lemma utils_kc_elem_eq_I_mul (sigma c0 rho0 fi : ℝ) :
    utils.kc_elem sigma c0 rho0 fi = Complex.I * macroscopic.kc_elem sigma c0 rho0 fi := by
  unfold utils.kc_elem macroscopic.kc_elem
  rw [show (-0.70 : ℝ) = (-0.7 : ℝ) by norm_num]
  simp only [mul_div_assoc]
  push_cast
  ring_nf
  simp only [Complex.I_sq]
  push_cast
  ring_nf

lemma macroscopic_kc_re_pos (sigma c0 rho0 fi : ℝ)
    (hs : 0 < sigma) (hc0 : 0 < c0) (hfi : 0 < fi) :
    0 < (macroscopic.kc_elem sigma c0 rho0 fi).re := by
  have hm : macroscopic.kc_elem sigma c0 rho0 fi =
      ((2 * Real.pi * fi / c0 * (1 + 10.8 * ((1e3 * fi / sigma) ^ (-0.70 : ℝ))) : ℝ) : ℂ) +
      ((-(2 * Real.pi * fi / c0 * (10.3 * ((1e3 * fi / sigma) ^ (-0.59 : ℝ)))) : ℝ) : ℂ) *
        Complex.I := by
    unfold macroscopic.kc_elem
    push_cast
    ring_nf
    push_cast
    ring_nf
  have hx : (0 : ℝ) ≤ (1e3 * fi / sigma) ^ (-0.70 : ℝ) :=
    Real.rpow_nonneg (by positivity) _
  have ha : (0 : ℝ) < 2 * Real.pi * fi / c0 := by
    have : (0 : ℝ) < 2 * Real.pi * fi := by
      have := Real.pi_pos
      nlinarith
    positivity
  rw [hm]
  simp only [Complex.add_re, Complex.ofReal_re, Complex.mul_re, Complex.I_re,
    Complex.I_im, Complex.ofReal_im, mul_zero, zero_mul, mul_one, sub_zero, add_zero,
    zero_sub, sub_self, neg_zero]
  nlinarith

/-- Claim C3: the two empirical-model implementations compute the same `Zc`
but materially different `kc`: on the same input the `utils.py` variant returns
`kc` with the real/imaginary roles of the two bracket terms swapped (so the
whole `kc` vector is `I` times the checkpoint variant's `kc` vector), and at
every valid frequency the two `kc` values differ while the `Zc` vectors are
equal. -/
theorem delany_variants_Zc_eq_kc_differ (f : List ℝ) (sigma c0 rho0 : ℝ)
    (hs : 0 < sigma) (hc0 : 0 < c0) (fi : ℝ) (hmem : fi ∈ f) (hfi : 0 < fi) :
    (utils.delany_bazley f sigma c0 rho0).1 = (macroscopic.delany_bazley f sigma c0 rho0).1 ∧
    (utils.delany_bazley f sigma c0 rho0).2 =
      (macroscopic.delany_bazley f sigma c0 rho0).2.map (fun z => Complex.I * z) ∧
    utils.kc_elem sigma c0 rho0 fi ≠ macroscopic.kc_elem sigma c0 rho0 fi ∧
    (utils.delany_bazley f sigma c0 rho0).2 ≠ (macroscopic.delany_bazley f sigma c0 rho0).2 := by
  have hne : utils.kc_elem sigma c0 rho0 fi ≠ macroscopic.kc_elem sigma c0 rho0 fi := by
    intro heq
    have hpos := macroscopic_kc_re_pos sigma c0 rho0 fi hs hc0 hfi
    rw [utils_kc_elem_eq_I_mul] at heq
    have h1 : (Complex.I * macroscopic.kc_elem sigma c0 rho0 fi).re =
        (macroscopic.kc_elem sigma c0 rho0 fi).re := by rw [heq]
    have h2 : (Complex.I * macroscopic.kc_elem sigma c0 rho0 fi).im =
        (macroscopic.kc_elem sigma c0 rho0 fi).im := by rw [heq]
    simp only [Complex.mul_re, Complex.mul_im, Complex.I_re, Complex.I_im,
      zero_mul, one_mul, zero_sub, add_zero, zero_add] at h1 h2
    linarith
  refine ⟨?_, ?_, hne, ?_⟩
  · simp only [utils.delany_bazley, macroscopic.delany_bazley]
    exact List.map_congr_left fun x _ => utils_Zc_elem_eq sigma c0 rho0 x
  · simp only [utils.delany_bazley, macroscopic.delany_bazley]
    rw [List.map_map]
    exact List.map_congr_left fun x _ => utils_kc_elem_eq_I_mul sigma c0 rho0 x
  · intro hlist
    obtain ⟨i, hlen, hget⟩ := List.mem_iff_getElem.mp hmem
    have hq : (utils.delany_bazley f sigma c0 rho0).2[i]? =
        (macroscopic.delany_bazley f sigma c0 rho0).2[i]? := by rw [hlist]
    simp only [utils.delany_bazley, macroscopic.delany_bazley, List.getElem?_map] at hq
    rw [List.getElem?_eq_getElem hlen, hget] at hq
    exact hne (Option.some_injective ℂ (by simpa using hq))

/-- Witness for claim C3 at the concrete input `f = [100]`, `sigma = 4000`,
`c0 = 343`, `rho0 = 1.21`. -/
theorem delany_variants_Zc_eq_kc_differ_witness :
    (utils.delany_bazley [100] 4000 343 1.21).1 = (macroscopic.delany_bazley [100] 4000 343 1.21).1 ∧
    (utils.delany_bazley [100] 4000 343 1.21).2 =
      (macroscopic.delany_bazley [100] 4000 343 1.21).2.map (fun z => Complex.I * z) ∧
    utils.kc_elem 4000 343 1.21 100 ≠ macroscopic.kc_elem 4000 343 1.21 100 ∧
    (utils.delany_bazley [100] 4000 343 1.21).2 ≠ (macroscopic.delany_bazley [100] 4000 343 1.21).2 :=
  delany_variants_Zc_eq_kc_differ [100] 4000 343 1.21 (by norm_num) (by norm_num)
    100 (by simp) (by norm_num)

lemma utils_Zc_elem_scale (l sigma c0 rho0 fi : ℝ) (hl : l ≠ 0) :
    utils.Zc_elem (l * sigma) c0 rho0 (l * fi) = utils.Zc_elem sigma c0 rho0 fi := by
  unfold utils.Zc_elem
  rw [show (l * fi) / (l * sigma) = fi / sigma by rw [mul_div_mul_left _ _ hl]]

lemma utils_kc_elem_scale (l sigma c0 rho0 fi : ℝ) (hl : l ≠ 0) :
    utils.kc_elem (l * sigma) c0 rho0 (l * fi) = (l : ℂ) * utils.kc_elem sigma c0 rho0 fi := by
  unfold utils.kc_elem
  rw [show (l * fi) / (l * sigma) = fi / sigma by rw [mul_div_mul_left _ _ hl]]
  push_cast
  ring

lemma macroscopic_Zc_elem_scale (l sigma c0 rho0 fi : ℝ) (hl : l ≠ 0) :
    macroscopic.Zc_elem (l * sigma) c0 rho0 (l * fi) = macroscopic.Zc_elem sigma c0 rho0 fi := by
  unfold macroscopic.Zc_elem
  rw [show (1e3 * (l * fi)) / (l * sigma) = (1e3 * fi) / sigma by
    rw [show (1e3 : ℝ) * (l * fi) = l * (1e3 * fi) by ring, mul_div_mul_left _ _ hl]]

lemma macroscopic_kc_elem_scale (l sigma c0 rho0 fi : ℝ) (hl : l ≠ 0) :
    macroscopic.kc_elem (l * sigma) c0 rho0 (l * fi) =
      (l : ℂ) * macroscopic.kc_elem sigma c0 rho0 fi := by
  unfold macroscopic.kc_elem
  rw [show (1e3 * (l * fi)) / (l * sigma) = (1e3 * fi) / sigma by
    rw [show (1e3 : ℝ) * (l * fi) = l * (1e3 * fi) by ring, mul_div_mul_left _ _ hl]]
  push_cast
  ring

/-- Claim C10: implicit scaling law of the empirical model (both variants).
Multiplying every frequency and the flux resistivity by the same `l > 0`
leaves every `Zc` element unchanged and multiplies every `kc` element by `l`. -/
theorem empirical_scaling (l : ℝ) (hl : 0 < l) (f : List ℝ) (sigma c0 rho0 : ℝ) :
    ((utils.delany_bazley (f.map (fun x => l * x)) (l * sigma) c0 rho0).1 =
        (utils.delany_bazley f sigma c0 rho0).1 ∧
      (utils.delany_bazley (f.map (fun x => l * x)) (l * sigma) c0 rho0).2 =
        (utils.delany_bazley f sigma c0 rho0).2.map (fun z => (l : ℂ) * z)) ∧
    ((macroscopic.delany_bazley (f.map (fun x => l * x)) (l * sigma) c0 rho0).1 =
        (macroscopic.delany_bazley f sigma c0 rho0).1 ∧
      (macroscopic.delany_bazley (f.map (fun x => l * x)) (l * sigma) c0 rho0).2 =
        (macroscopic.delany_bazley f sigma c0 rho0).2.map (fun z => (l : ℂ) * z)) := by
  have hl0 : l ≠ 0 := ne_of_gt hl
  refine ⟨⟨?_, ?_⟩, ?_, ?_⟩ <;>
    simp only [utils.delany_bazley, macroscopic.delany_bazley, List.map_map] <;>
    refine List.map_congr_left fun x _ => ?_
  · exact utils_Zc_elem_scale l sigma c0 rho0 x hl0
  · exact utils_kc_elem_scale l sigma c0 rho0 x hl0
  · exact macroscopic_Zc_elem_scale l sigma c0 rho0 x hl0
  · exact macroscopic_kc_elem_scale l sigma c0 rho0 x hl0

/-- Witness for claim C10 at `l = 2`, `f = [100]`, `sigma = 4000`, `c0 = 343`,
`rho0 = 1.21`. -/
theorem empirical_scaling_witness :
    (((utils.delany_bazley ([100].map (fun x => (2 : ℝ) * x)) (2 * 4000) 343 1.21).1 =
        (utils.delany_bazley [100] 4000 343 1.21).1 ∧
      (utils.delany_bazley ([100].map (fun x => (2 : ℝ) * x)) (2 * 4000) 343 1.21).2 =
        (utils.delany_bazley [100] 4000 343 1.21).2.map (fun z => ((2 : ℝ) : ℂ) * z)) ∧
    ((macroscopic.delany_bazley ([100].map (fun x => (2 : ℝ) * x)) (2 * 4000) 343 1.21).1 =
        (macroscopic.delany_bazley [100] 4000 343 1.21).1 ∧
      (macroscopic.delany_bazley ([100].map (fun x => (2 : ℝ) * x)) (2 * 4000) 343 1.21).2 =
        (macroscopic.delany_bazley [100] 4000 343 1.21).2.map (fun z => ((2 : ℝ) : ℂ) * z))) :=
  empirical_scaling 2 (by norm_num) [100] 4000 343 1.21

lemma csqrt_re (z : ℂ) : (csqrt z).re = Real.sqrt ((Complex.abs z + z.re) / 2) := rfl

lemma csqrt_im (z : ℂ) :
    (csqrt z).im = (if z.im < 0 then -1 else 1) * Real.sqrt ((Complex.abs z - z.re) / 2) := rfl

lemma csqrt_re_nonneg (z : ℂ) : 0 ≤ (csqrt z).re := Real.sqrt_nonneg _

lemma csqrt_sq (z : ℂ) : csqrt z ^ 2 = z := by
  have h1 := Complex.abs_re_le_abs z
  have h1l := (abs_le.mp h1).1
  have h1r := (abs_le.mp h1).2
  have h2 : 0 ≤ (Complex.abs z + z.re) / 2 := by linarith
  have h3 : 0 ≤ (Complex.abs z - z.re) / 2 := by linarith
  have habs : (Complex.abs z) ^ 2 = z.re ^ 2 + z.im ^ 2 := by
    rw [Complex.sq_abs, Complex.normSq_apply]
    ring
  have hprod : Real.sqrt ((Complex.abs z + z.re) / 2) * Real.sqrt ((Complex.abs z - z.re) / 2)
      = |z.im| / 2 := by
    rw [← Real.sqrt_mul h2]
    rw [show (Complex.abs z + z.re) / 2 * ((Complex.abs z - z.re) / 2)
        = ((Complex.abs z) ^ 2 - z.re ^ 2) / 4 by ring]
    rw [habs]
    rw [show (z.re ^ 2 + z.im ^ 2 - z.re ^ 2) / 4 = (|z.im| / 2) ^ 2 by
      rw [show (|z.im| / 2) ^ 2 = |z.im| * |z.im| / 4 by ring, abs_mul_abs_self]
      ring]
    exact Real.sqrt_sq (by positivity)
  have ha : Real.sqrt ((Complex.abs z + z.re) / 2) * Real.sqrt ((Complex.abs z + z.re) / 2)
      = (Complex.abs z + z.re) / 2 := Real.mul_self_sqrt h2
  have hc : Real.sqrt ((Complex.abs z - z.re) / 2) * Real.sqrt ((Complex.abs z - z.re) / 2)
      = (Complex.abs z - z.re) / 2 := Real.mul_self_sqrt h3
  apply Complex.ext
  · simp only [pow_two, Complex.mul_re, csqrt_re, csqrt_im]
    split_ifs with h <;> nlinarith [ha, hc]
  · simp only [pow_two, Complex.mul_im, csqrt_re, csqrt_im]
    split_ifs with h
    · have habsim : |z.im| = -z.im := abs_of_neg h
      nlinarith [hprod]
    · have habsim : |z.im| = z.im := abs_of_nonneg (not_lt.mp h)
      nlinarith [hprod]

/-- Claim C6: the phenomenological model uses the principal branch of the
complex square root throughout (`csqrt z` squares back to `z` and has
non-negative real part); in particular every returned impedance element
`Zc[i]` of `jca` has non-negative real part. -/
theorem jca_principal_branch_Zc_re_nonneg :
    (∀ z : ℂ, csqrt z ^ 2 = z ∧ 0 ≤ (csqrt z).re) ∧
    ∀ (f : List ℝ) (sigma tortuosity porosity vcl rho0 gamma eta prandtl P0 : ℝ) (zc : ℂ),
      zc ∈ (macroscopic.jca f sigma tortuosity porosity vcl rho0 gamma eta prandtl P0).1 →
      0 ≤ zc.re := by
  refine ⟨fun z => ⟨csqrt_sq z, csqrt_re_nonneg z⟩, ?_⟩
  intro f sigma tortuosity porosity vcl rho0 gamma eta prandtl P0 zc hmem
  simp only [macroscopic.jca, List.mem_map] at hmem
  obtain ⟨fi, _, rfl⟩ := hmem
  unfold macroscopic.jca_Zc_elem
  exact csqrt_re_nonneg _

/-- Witness for claim C6 at the concrete input `f = [100]`, `sigma = 4000`,
`tortuosity = 1.1`, `porosity = 0.95`, `vcl = 1e-4` and the default
environmental constants. -/
theorem jca_principal_branch_witness :
    0 ≤ (macroscopic.jca_Zc_elem 4000 1.1 1e-4 0.95 1.21 1.4 1.84e-5 0.77 101325 100).re :=
  jca_principal_branch_Zc_re_nonneg.2 [100] 4000 1.1 0.95 1e-4 1.21 1.4 1.84e-5 0.77 101325
    (macroscopic.jca_Zc_elem 4000 1.1 1e-4 0.95 1.21 1.4 1.84e-5 0.77 101325 100)
    (by simp [macroscopic.jca])

/-- Imaginary part of the argument of `brackets_sqrt` in `jca`, as a real
number: `4*t^2*eta*r0*w / (s^2*L^2*phi^2)`. -/
def jcaA (t L phi r0 eta w s : ℝ) : ℝ :=
  4 * t ^ 2 * eta * r0 * w / (s ^ 2 * L ^ 2 * phi ^ 2)

/-- Real part of `brackets_sqrt` in `jca`. -/
def jcaU (t L phi r0 eta w s : ℝ) : ℝ :=
  Real.sqrt ((Real.sqrt (1 + jcaA t L phi r0 eta w s ^ 2) + 1) / 2)

/-- Imaginary part of `brackets_sqrt` in `jca` (for non-negative `jcaA`). -/
def jcaV (t L phi r0 eta w s : ℝ) : ℝ :=
  Real.sqrt ((Real.sqrt (1 + jcaA t L phi r0 eta w s ^ 2) - 1) / 2)

lemma jca_w_eq (s t L phi r0 eta w : ℝ) :
    (1 : ℂ) + (4 * Complex.I * ((t ^ 2 * eta * r0 * w : ℝ) : ℂ)) /
        (((s ^ 2 * L ^ 2 * phi ^ 2 : ℝ) : ℂ))
      = ((1 : ℝ) : ℂ) + ((jcaA t L phi r0 eta w s : ℝ) : ℂ) * Complex.I := by
  unfold jcaA
  push_cast
  ring

lemma brackets_sqrt_repr (s t L phi r0 eta w : ℝ) (hA : 0 ≤ jcaA t L phi r0 eta w s) :
    macroscopic.brackets_sqrt s t L phi r0 eta w
      = ((jcaU t L phi r0 eta w s : ℝ) : ℂ) + ((jcaV t L phi r0 eta w s : ℝ) : ℂ) * Complex.I := by
  unfold macroscopic.brackets_sqrt
  rw [jca_w_eq]
  have habs : Complex.abs (((1 : ℝ) : ℂ) + ((jcaA t L phi r0 eta w s : ℝ) : ℂ) * Complex.I)
      = Real.sqrt (1 + jcaA t L phi r0 eta w s ^ 2) := by
    rw [Complex.abs_add_mul_I]
    norm_num
  have hre : (((1 : ℝ) : ℂ) + ((jcaA t L phi r0 eta w s : ℝ) : ℂ) * Complex.I).re = 1 := by
    simp
  have him : (((1 : ℝ) : ℂ) + ((jcaA t L phi r0 eta w s : ℝ) : ℂ) * Complex.I).im
      = jcaA t L phi r0 eta w s := by
    simp
  apply Complex.ext
  · rw [csqrt_re, habs, hre]
    simp [jcaU]
  · rw [csqrt_im, habs, hre, him, if_neg (not_lt.mpr hA), one_mul]
    simp [jcaV]

lemma rho_c_repr (s t L phi r0 eta w : ℝ) (ht : t ≠ 0) (hr0 : r0 ≠ 0) (hw : w ≠ 0)
    (hA : 0 ≤ jcaA t L phi r0 eta w s) :
    macroscopic.rho_c s t L phi r0 eta w
      = ((r0 * t * (1 + s * phi / (t * r0 * w) * jcaV t L phi r0 eta w s) : ℝ) : ℂ)
        + ((-(r0 * t * (s * phi / (t * r0 * w) * jcaU t L phi r0 eta w s)) : ℝ) : ℂ) *
          Complex.I := by
  have htrw : (t * r0 * w : ℝ) ≠ 0 := by
    exact mul_ne_zero (mul_ne_zero ht hr0) hw
  have hden : (Complex.I * ((t * r0 * w : ℝ) : ℂ)) ≠ 0 :=
    mul_ne_zero Complex.I_ne_zero (Complex.ofReal_ne_zero.mpr htrw)
  have hdiv : ((s * phi : ℝ) : ℂ) / (Complex.I * ((t * r0 * w : ℝ) : ℂ))
      = ((s * phi / (t * r0 * w) : ℝ) : ℂ) * (-Complex.I) := by
    rw [div_eq_iff hden]
    symm
    have hcancel : (s * phi / (t * r0 * w)) * (t * r0 * w) = s * phi :=
      div_mul_cancel₀ _ htrw
    calc ((s * phi / (t * r0 * w) : ℝ) : ℂ) * (-Complex.I) * (Complex.I * ((t * r0 * w : ℝ) : ℂ))
        = (((s * phi / (t * r0 * w)) * (t * r0 * w) : ℝ) : ℂ) * (-(Complex.I * Complex.I)) := by
          push_cast
          ring
      _ = ((s * phi : ℝ) : ℂ) := by
          rw [hcancel, Complex.I_mul_I]
          ring
  unfold macroscopic.rho_c
  rw [brackets_sqrt_repr s t L phi r0 eta w hA, hdiv]
  push_cast
  ring_nf
  simp only [Complex.I_sq]
  ring_nf

lemma jcaA_nonneg (t L phi r0 eta w s : ℝ) (ht : 0 < t) (heta : 0 < eta)
    (hr0 : 0 < r0) (hw : 0 < w) : 0 ≤ jcaA t L phi r0 eta w s := by
  unfold jcaA
  positivity

lemma jcaA_eq_div_sq (t L phi r0 eta w s : ℝ) :
    jcaA t L phi r0 eta w s = (4 * t ^ 2 * eta * r0 * w / (L ^ 2 * phi ^ 2)) / s ^ 2 := by
  unfold jcaA
  rw [div_div]
  congr 1
  ring

lemma jcaV_nonneg (t L phi r0 eta w s : ℝ) : 0 ≤ jcaV t L phi r0 eta w s := by
  unfold jcaV
  exact Real.sqrt_nonneg _

lemma jcaU_ge_one (t L phi r0 eta w s : ℝ) : 1 ≤ jcaU t L phi r0 eta w s := by
  unfold jcaU
  have hA := sq_nonneg (jcaA t L phi r0 eta w s)
  have h1 : (1 : ℝ) ≤ Real.sqrt (1 + jcaA t L phi r0 eta w s ^ 2) :=
    (Real.le_sqrt (by norm_num) (by nlinarith)).mpr (by nlinarith)
  exact (Real.le_sqrt (by norm_num) (by nlinarith)).mpr (by nlinarith)

lemma tendsto_s_mul_jcaV (t L phi r0 eta w : ℝ) (ht : 0 < t) (hL : 0 < L) (hphi : 0 < phi)
    (hr0 : 0 < r0) (heta : 0 < eta) (hw : 0 < w) :
    Filter.Tendsto (fun s => s * jcaV t L phi r0 eta w s) Filter.atTop (nhds 0) := by
  have hC : (0 : ℝ) < 4 * t ^ 2 * eta * r0 * w / (L ^ 2 * phi ^ 2) := by positivity
  have h0 : ∀ᶠ s in Filter.atTop, 0 ≤ s * jcaV t L phi r0 eta w s := by
    filter_upwards [Filter.eventually_ge_atTop (0 : ℝ)] with s hs
    exact mul_nonneg hs (jcaV_nonneg t L phi r0 eta w s)
  have hle : ∀ᶠ s in Filter.atTop, s * jcaV t L phi r0 eta w s ≤
      (4 * t ^ 2 * eta * r0 * w / (L ^ 2 * phi ^ 2)) / (2 * s) := by
    filter_upwards [Filter.eventually_gt_atTop (0 : ℝ)] with s hs
    set C : ℝ := 4 * t ^ 2 * eta * r0 * w / (L ^ 2 * phi ^ 2) with hCdef
    have hCpos : 0 < C := hC
    have hs2 : (0 : ℝ) < s ^ 2 := by positivity
    have ha : 0 ≤ C / s ^ 2 := by positivity
    have hS : Real.sqrt (1 + (C / s ^ 2) ^ 2) ≤ 1 + (C / s ^ 2) ^ 2 / 2 := by
      rw [Real.sqrt_le_iff]
      constructor
      · nlinarith
      · nlinarith
    have hv : jcaV t L phi r0 eta w s ≤ (C / s ^ 2) / 2 := by
      unfold jcaV
      rw [jcaA_eq_div_sq]
      calc Real.sqrt ((Real.sqrt (1 + (C / s ^ 2) ^ 2) - 1) / 2)
          ≤ Real.sqrt (((C / s ^ 2) / 2) ^ 2) := Real.sqrt_le_sqrt (by nlinarith)
        _ = (C / s ^ 2) / 2 := Real.sqrt_sq (by positivity)
    calc s * jcaV t L phi r0 eta w s
        ≤ s * ((C / s ^ 2) / 2) :=
          mul_le_mul_of_nonneg_left hv (le_of_lt hs)
      _ = C / (2 * s) := by
          field_simp
          ring
  have hg : Filter.Tendsto (fun s : ℝ => (4 * t ^ 2 * eta * r0 * w / (L ^ 2 * phi ^ 2)) / (2 * s))
      Filter.atTop (nhds 0) :=
    Filter.Tendsto.div_atTop tendsto_const_nhds
      (Filter.Tendsto.const_mul_atTop two_pos Filter.tendsto_id)
  exact squeeze_zero' h0 hle hg

lemma rho_c_re_tendsto (t L phi r0 eta w : ℝ) (ht : 0 < t) (hL : 0 < L) (hphi : 0 < phi)
    (hr0 : 0 < r0) (heta : 0 < eta) (hw : 0 < w) :
    Filter.Tendsto (fun s => (macroscopic.rho_c s t L phi r0 eta w).re)
      Filter.atTop (nhds (r0 * t)) := by
  have hrepr : ∀ s, r0 * t + (r0 * t * (phi / (t * r0 * w))) * (s * jcaV t L phi r0 eta w s)
      = (macroscopic.rho_c s t L phi r0 eta w).re := by
    intro s
    rw [rho_c_repr s t L phi r0 eta w ht.ne' hr0.ne' hw.ne'
      (jcaA_nonneg t L phi r0 eta w s ht heta hr0 hw)]
    simp only [Complex.add_re, Complex.ofReal_re, Complex.mul_re, Complex.I_re,
      Complex.I_im, Complex.ofReal_im, mul_zero, zero_mul, mul_one, sub_zero, add_zero,
      zero_sub, sub_self, neg_zero]
    ring
  have h1 := Filter.Tendsto.const_mul (r0 * t * (phi / (t * r0 * w)))
    (tendsto_s_mul_jcaV t L phi r0 eta w ht hL hphi hr0 heta hw)
  have h2 := Filter.Tendsto.add
    (tendsto_const_nhds : Filter.Tendsto (fun _ : ℝ => r0 * t) Filter.atTop (nhds (r0 * t))) h1
  refine Filter.Tendsto.congr hrepr ?_
  simpa using h2

lemma rho_c_im_tendsto_atBot (t L phi r0 eta w : ℝ) (ht : 0 < t) (hL : 0 < L) (hphi : 0 < phi)
    (hr0 : 0 < r0) (heta : 0 < eta) (hw : 0 < w) :
    Filter.Tendsto (fun s => (macroscopic.rho_c s t L phi r0 eta w).im)
      Filter.atTop Filter.atBot := by
  have hrepr : ∀ s, (macroscopic.rho_c s t L phi r0 eta w).im
      = -((r0 * t * (phi / (t * r0 * w))) * (s * jcaU t L phi r0 eta w s)) := by
    intro s
    rw [rho_c_repr s t L phi r0 eta w ht.ne' hr0.ne' hw.ne'
      (jcaA_nonneg t L phi r0 eta w s ht heta hr0 hw)]
    simp only [Complex.add_im, Complex.ofReal_im, Complex.mul_im, Complex.I_re,
      Complex.I_im, Complex.ofReal_re, mul_zero, zero_mul, mul_one, sub_zero, add_zero,
      zero_add, zero_sub, neg_zero]
    ring
  have hc : 0 < r0 * t * (phi / (t * r0 * w)) := by positivity
  have hev : (fun s => (macroscopic.rho_c s t L phi r0 eta w).im) ≤ᶠ[Filter.atTop]
      (fun s => -((r0 * t * (phi / (t * r0 * w))) * s)) := by
    filter_upwards [Filter.eventually_ge_atTop (0 : ℝ)] with s hs
    rw [hrepr s]
    have hu := jcaU_ge_one t L phi r0 eta w s
    have : (r0 * t * (phi / (t * r0 * w))) * s
        ≤ (r0 * t * (phi / (t * r0 * w))) * (s * jcaU t L phi r0 eta w s) := by
      have hsu : s ≤ s * jcaU t L phi r0 eta w s := by nlinarith
      exact mul_le_mul_of_nonneg_left hsu (le_of_lt hc)
    linarith
  have hbot : Filter.Tendsto (fun s : ℝ => -((r0 * t * (phi / (t * r0 * w))) * s))
      Filter.atTop Filter.atBot :=
    Filter.tendsto_neg_atTop_atBot.comp
      (Filter.Tendsto.const_mul_atTop hc Filter.tendsto_id)
  exact Filter.tendsto_atBot_mono' Filter.atTop hev hbot

/-- Counterexample to claim C9 as stated: at the concrete parameters
`tortuosity = 1`, `viscous characteristic length = 1`, `porosity = 1`,
`rho0 = 1`, `air_viscosity = 1` and frequency `f = 1` (so `omega = 2*pi*1`),
the imaginary part of the dynamic density `rho_c` does NOT tend to `0` as the
flux resistivity `sigma` tends to infinity (it tends to `-∞`). -/
theorem rho_c_im_not_tendsto_zero :
    ¬ Filter.Tendsto (fun s : ℝ => (macroscopic.rho_c s 1 1 1 1 1 (2 * Real.pi * 1)).im)
      Filter.atTop (nhds 0) :=
  not_tendsto_nhds_of_tendsto_atBot
    (rho_c_im_tendsto_atBot 1 1 1 1 1 (2 * Real.pi * 1)
      one_pos one_pos one_pos one_pos one_pos (by positivity)) 0

/-- Claim C9 (amended): for the phenomenological model with fixed frequency
`f > 0` and fixed strictly positive other parameters, as the flux resistivity
`sigma` tends to infinity the REAL part of the dynamic density `rho_c` tends to
`rho0 * tortuosity`, but the IMAGINARY part does not tend to `0`: it tends to
`-∞` (so `rho_c` itself does not converge to `rho0 * tortuosity`). -/
theorem rho_c_high_resistivity_limit (t L phi r0 eta f : ℝ) (ht : 0 < t) (hL : 0 < L)
    (hphi : 0 < phi) (hr0 : 0 < r0) (heta : 0 < eta) (hf : 0 < f) :
    Filter.Tendsto (fun s => (macroscopic.rho_c s t L phi r0 eta (2 * Real.pi * f)).re)
      Filter.atTop (nhds (r0 * t)) ∧
    Filter.Tendsto (fun s => (macroscopic.rho_c s t L phi r0 eta (2 * Real.pi * f)).im)
      Filter.atTop Filter.atBot :=
  ⟨rho_c_re_tendsto t L phi r0 eta (2 * Real.pi * f) ht hL hphi hr0 heta (by positivity),
   rho_c_im_tendsto_atBot t L phi r0 eta (2 * Real.pi * f) ht hL hphi hr0 heta (by positivity)⟩

/-- Witness for (amended) claim C9 at `tortuosity = 1`, `L = 1`, `porosity = 1`,
`rho0 = 1`, `air_viscosity = 1`, `f = 1`. -/
theorem rho_c_high_resistivity_limit_witness :
    Filter.Tendsto (fun s => (macroscopic.rho_c s 1 1 1 1 1 (2 * Real.pi * 1)).re)
      Filter.atTop (nhds ((1 : ℝ) * 1)) ∧
    Filter.Tendsto (fun s => (macroscopic.rho_c s 1 1 1 1 1 (2 * Real.pi * 1)).im)
      Filter.atTop Filter.atBot :=
  rho_c_high_resistivity_limit 1 1 1 1 1 1
    one_pos one_pos one_pos one_pos one_pos one_pos

/-- Claim C5: for every input frequency sequence (of any length, including zero)
and any parameter values, the empirical model (both variants) and the
phenomenological model return two output sequences whose lengths each equal the
length of the input frequency sequence. -/
theorem output_lengths_eq (f : List ℝ)
    (sigma c0 rho0 tortuosity porosity vcl gamma eta prandtl P0 : ℝ) :
    ((utils.delany_bazley f sigma c0 rho0).1.length = f.length ∧
      (utils.delany_bazley f sigma c0 rho0).2.length = f.length) ∧
    ((macroscopic.delany_bazley f sigma c0 rho0).1.length = f.length ∧
      (macroscopic.delany_bazley f sigma c0 rho0).2.length = f.length) ∧
    ((macroscopic.jca f sigma tortuosity porosity vcl rho0 gamma eta prandtl P0).1.length
        = f.length ∧
      (macroscopic.jca f sigma tortuosity porosity vcl rho0 gamma eta prandtl P0).2.length
        = f.length) := by
  refine ⟨⟨?_, ?_⟩, ⟨?_, ?_⟩, ⟨?_, ?_⟩⟩ <;>
    simp [utils.delany_bazley, macroscopic.delany_bazley, macroscopic.jca]

/-- Claim C7: the empirical model (checkpoint variant, which carries the default
arguments) called with only the frequency vector and the flux resistivity uses
`c0 = 343` and `rho0 = 1.21`, and the result equals that of passing those two
values explicitly. -/
theorem delany_bazley_default_args (f : List ℝ) (sigma : ℝ) :
    macroscopic.delany_bazley f sigma = macroscopic.delany_bazley f sigma 343 1.21 :=
  rfl

/-- Claim C8: both models are elementwise maps with no cross-element dependency:
on a concatenation `f1 ++ f2` each output sequence is the concatenation of the
outputs on `f1` and on `f2` separately. -/
theorem models_map_append (f1 f2 : List ℝ)
    (sigma c0 rho0 tortuosity porosity vcl gamma eta prandtl P0 : ℝ) :
    ((utils.delany_bazley (f1 ++ f2) sigma c0 rho0).1 =
        (utils.delany_bazley f1 sigma c0 rho0).1 ++ (utils.delany_bazley f2 sigma c0 rho0).1 ∧
      (utils.delany_bazley (f1 ++ f2) sigma c0 rho0).2 =
        (utils.delany_bazley f1 sigma c0 rho0).2 ++ (utils.delany_bazley f2 sigma c0 rho0).2) ∧
    ((macroscopic.delany_bazley (f1 ++ f2) sigma c0 rho0).1 =
        (macroscopic.delany_bazley f1 sigma c0 rho0).1 ++
          (macroscopic.delany_bazley f2 sigma c0 rho0).1 ∧
      (macroscopic.delany_bazley (f1 ++ f2) sigma c0 rho0).2 =
        (macroscopic.delany_bazley f1 sigma c0 rho0).2 ++
          (macroscopic.delany_bazley f2 sigma c0 rho0).2) ∧
    ((macroscopic.jca (f1 ++ f2) sigma tortuosity porosity vcl rho0 gamma eta prandtl P0).1 =
        (macroscopic.jca f1 sigma tortuosity porosity vcl rho0 gamma eta prandtl P0).1 ++
          (macroscopic.jca f2 sigma tortuosity porosity vcl rho0 gamma eta prandtl P0).1 ∧
      (macroscopic.jca (f1 ++ f2) sigma tortuosity porosity vcl rho0 gamma eta prandtl P0).2 =
        (macroscopic.jca f1 sigma tortuosity porosity vcl rho0 gamma eta prandtl P0).2 ++
          (macroscopic.jca f2 sigma tortuosity porosity vcl rho0 gamma eta prandtl P0).2) := by
  refine ⟨⟨?_, ?_⟩, ⟨?_, ?_⟩, ⟨?_, ?_⟩⟩ <;>
    simp [utils.delany_bazley, macroscopic.delany_bazley, macroscopic.jca]

end
